import Mathlib

/-!
Verification development for the Binance trade-history script
(`get-binance-history.py`).  The script's pure logic is embedded shallowly:

* `_generate_signature`  → `generateSignature` (a full HMAC-SHA-256 over
  the UTF-8 bytes of the secret and of the query string, rendered as a
  lowercase hex digest, exactly as `hmac.new(..., hashlib.sha256).hexdigest()`);
* `urlencode`            → `urlencode` / `quotePlus` (the `urllib.parse`
  serialization of an insertion-ordered parameter mapping);
* `_make_request`        → `makeRequestSent` (parameter preparation) and
  `makeRequest` / `handleResponse` (status interpretation), with the HTTP
  transport abstracted as a function argument;
* `get_last_trade` / `get_all_orders` → their parameter-mapping builders;
* `load_env_file` and the credential resolution at module load
  → `loadEnvFile`, `pyOr`, `resolveApiKey`;
* `get_recent_filled_orders` → `getRecentFilledOrders`, with the account
  info and the per-symbol order fetch abstracted as arguments; the fetch
  returns `Except Unit (Option (List Order))`: `.error` models a raised
  exception (caught by the bare `except`), `.ok none` models the `None`
  that `_make_request` returns on a non-200 status, `.ok (some l)` a
  parsed order list.

Python dicts preserve insertion order, so parameter mappings are embedded
as insertion-ordered association lists (`List (String × String)`) with
`dictInsert` as the assignment `d[k] = v`.  Python's `list(set(...))`
iterates in an unspecified order; it is embedded as first-occurrence
deduplication (`dedupFirst`), and every property proved about it
(membership, absence of duplicates, and the fixture outcomes, whose fill
times are distinct) is invariant under reordering.  `list.sort` is a
stable sort; a stable sort's output is uniquely determined, so it is
embedded as a stable insertion sort (`sortByTimeDesc`).
-/

/-- Truncation to a 32-bit word, written explicitly as `% 2^32`. -/
def w32 (n : Nat) : Nat := n % 4294967296

/-- 32-bit right rotation. -/
def rotr32 (n x : Nat) : Nat := w32 ((x >>> n) ||| (x <<< (32 - n)))

/-- Bitwise complement on 32 bits. -/
def not32 (x : Nat) : Nat := x ^^^ 4294967295

/-- SHA-256 `Ch` function. -/
def shaCh (x y z : Nat) : Nat := (x &&& y) ^^^ (not32 x &&& z)

/-- SHA-256 `Maj` function. -/
def shaMaj (x y z : Nat) : Nat := (x &&& y) ^^^ (x &&& z) ^^^ (y &&& z)

/-- SHA-256 Σ₀. -/
def shaS0 (x : Nat) : Nat := rotr32 2 x ^^^ rotr32 13 x ^^^ rotr32 22 x

/-- SHA-256 Σ₁. -/
def shaS1 (x : Nat) : Nat := rotr32 6 x ^^^ rotr32 11 x ^^^ rotr32 25 x

/-- SHA-256 σ₀. -/
def shas0 (x : Nat) : Nat := rotr32 7 x ^^^ rotr32 18 x ^^^ (x >>> 3)

/-- SHA-256 σ₁. -/
def shas1 (x : Nat) : Nat := rotr32 17 x ^^^ rotr32 19 x ^^^ (x >>> 10)

/-- The SHA-256 round constants. -/
def shaK : List Nat :=
  [1116352408, 1899447441, 3049323471, 3921009573, 961987163, 1508970993,
   2453635748, 2870763221, 3624381080, 310598401, 607225278, 1426881987,
   1925078388, 2162078206, 2614888103, 3248222580, 3835390401, 4022224774,
   264347078, 604807628, 770255983, 1249150122, 1555081692, 1996064986,
   2554220882, 2821834349, 2952996808, 3210313671, 3336571891, 3584528711,
   113926993, 338241895, 666307205, 773529912, 1294757372, 1396182291,
   1695183700, 1986661051, 2177026350, 2456956037, 2730485921, 2820302411,
   3259730800, 3345764771, 3516065817, 3600352804, 4094571909, 275423344,
   430227734, 506948616, 659060556, 883997877, 958139571, 1322822218,
   1537002063, 1747873779, 1955562222, 2024104815, 2227730452, 2361852424,
   2428436474, 2756734187, 3204031479, 3329325298]

/-- The SHA-256 initial hash value. -/
def shaH0 : List Nat :=
  [1779033703, 3144134277, 1013904242, 2773480762, 1359893119, 2600822924,
   528734635, 1541459225]

/-- Big-endian bytes of `n`, `k` bytes wide. -/
def beBytes (k n : Nat) : List Nat :=
  (List.range k).map (fun i => (n >>> (8 * (k - 1 - i))) &&& 255)

/-- SHA-256 message padding: append `0x80`, zero bytes up to 56 mod 64,
then the bit length as 8 big-endian bytes. -/
def shaPad (msg : List Nat) : List Nat :=
  msg ++ [0x80] ++ List.replicate ((119 - msg.length % 64) % 64) 0
      ++ beBytes 8 (8 * msg.length)

/-- Group 4 consecutive bytes into big-endian 32-bit words. -/
def bytesToWords (l : List Nat) : List Nat :=
  (List.range (l.length / 4)).map
    (fun i => ((l.getD (4*i) 0) <<< 24) ||| ((l.getD (4*i+1) 0) <<< 16)
           ||| ((l.getD (4*i+2) 0) <<< 8) ||| l.getD (4*i+3) 0)

/-- The 64-entry SHA-256 message schedule of one 16-word block. -/
def shaSchedule (block : List Nat) : List Nat :=
  (List.range 48).foldl
    (fun w _ =>
      w ++ [w32 (shas1 (w.getD (w.length - 2) 0) + w.getD (w.length - 7) 0
                 + shas0 (w.getD (w.length - 15) 0) + w.getD (w.length - 16) 0)])
    block

/-- One SHA-256 compression round. -/
def shaRound (st : Nat × Nat × Nat × Nat × Nat × Nat × Nat × Nat) (kw : Nat × Nat) :
    Nat × Nat × Nat × Nat × Nat × Nat × Nat × Nat :=
  match st, kw with
  | (a, b, c, d, e, f, g, h), (k, w) =>
    let t1 := w32 (h + shaS1 e + shaCh e f g + k + w)
    let t2 := w32 (shaS0 a + shaMaj a b c)
    (w32 (t1 + t2), a, b, c, w32 (d + t1), e, f, g)

/-- Compress one 64-byte block into the running hash (8 words). -/
def shaCompress (hash : List Nat) (block : List Nat) : List Nat :=
  let ws := shaSchedule (bytesToWords block)
  let init := (hash.getD 0 0, hash.getD 1 0, hash.getD 2 0, hash.getD 3 0,
               hash.getD 4 0, hash.getD 5 0, hash.getD 6 0, hash.getD 7 0)
  match (shaK.zip ws).foldl shaRound init with
  | (a, b, c, d, e, f, g, h) =>
    [w32 (hash.getD 0 0 + a), w32 (hash.getD 1 0 + b), w32 (hash.getD 2 0 + c),
     w32 (hash.getD 3 0 + d), w32 (hash.getD 4 0 + e), w32 (hash.getD 5 0 + f),
     w32 (hash.getD 6 0 + g), w32 (hash.getD 7 0 + h)]

/-- SHA-256 of a byte list, as 8 hash words. -/
def sha256Words (msg : List Nat) : List Nat :=
  let padded := shaPad msg
  (List.range (padded.length / 64)).foldl
    (fun h i => shaCompress h ((padded.drop (64 * i)).take 64)) shaH0

/-- SHA-256 of a byte list, as 32 digest bytes. -/
def sha256Bytes (msg : List Nat) : List Nat :=
  (sha256Words msg).flatMap (beBytes 4)

/-- Lowercase hex digit. -/
def hexDigit (n : Nat) : Char :=
  "0123456789abcdef".toList.getD n '0'

/-- Lowercase hexadecimal rendering of a byte list (`hexdigest`). -/
def bytesToHex (l : List Nat) : String :=
  String.mk (l.flatMap (fun b => [hexDigit (b / 16), hexDigit (b % 16)]))

/-- HMAC-SHA-256 (RFC 2104) of a message under a key, as 32 digest bytes. -/
def hmacSha256 (key msg : List Nat) : List Nat :=
  let k0 := if key.length > 64 then sha256Bytes key else key
  let k1 := k0 ++ List.replicate (64 - k0.length) 0
  let ipad := k1.map (fun b => b ^^^ 0x36)
  let opad := k1.map (fun b => b ^^^ 0x5c)
  sha256Bytes (opad ++ sha256Bytes (ipad ++ msg))

/-- UTF-8 encoding of one Unicode scalar value. -/
def utf8EncodeChar (c : Char) : List Nat :=
  let n := c.toNat
  if n < 0x80 then [n]
  else if n < 0x800 then [0xc0 ||| (n >>> 6), 0x80 ||| (n &&& 0x3f)]
  else if n < 0x10000 then
    [0xe0 ||| (n >>> 12), 0x80 ||| ((n >>> 6) &&& 0x3f), 0x80 ||| (n &&& 0x3f)]
  else
    [0xf0 ||| (n >>> 18), 0x80 ||| ((n >>> 12) &&& 0x3f),
     0x80 ||| ((n >>> 6) &&& 0x3f), 0x80 ||| (n &&& 0x3f)]

/-- UTF-8 encoding of a string (`str.encode('utf-8')`), as a byte list. -/
def utf8Encode (s : String) : List Nat :=
  s.data.flatMap utf8EncodeChar

/-- `BinanceAPI._generate_signature`:
`hmac.new(secret.encode('utf-8'), query_string.encode('utf-8'), hashlib.sha256).hexdigest()`. -/
def generateSignature (secretKey queryString : String) : String :=
  bytesToHex (hmacSha256 (utf8Encode secretKey) (utf8Encode queryString))

/-- The bytes `urllib.parse.quote_plus` leaves unescaped: ASCII letters,
digits, and `_`, `.`, `-`, `~`. -/
def isSafeByte (b : Nat) : Bool :=
  (48 ≤ b && b ≤ 57) || (65 ≤ b && b ≤ 90) || (97 ≤ b && b ≤ 122)
    || b == 95 || b == 46 || b == 45 || b == 126

/-- Uppercase hex digit (percent-escapes use uppercase). -/
def hexDigitUpper (n : Nat) : Char :=
  "0123456789ABCDEF".toList.getD n '0'

/-- `urllib.parse.quote_plus`: safe bytes kept, space turned into `+`,
every other UTF-8 byte percent-escaped. -/
def quotePlus (s : String) : String :=
  String.mk ((utf8Encode s).flatMap
    (fun b =>
      if isSafeByte b then [Char.ofNat b]
      else if b == 32 then ['+']
      else ['%', hexDigitUpper (b / 16), hexDigitUpper (b % 16)]))

/-- `urllib.parse.urlencode` over an insertion-ordered mapping:
`k1=v1&k2=v2&...` with `quote_plus` applied to keys and values. -/
def urlencode (params : List (String × String)) : String :=
  String.intercalate "&" (params.map (fun p => quotePlus p.1 ++ "=" ++ quotePlus p.2))

/-- The keys of an insertion-ordered mapping. -/
def dictKeys (d : List (String × String)) : List String := d.map Prod.fst

/-- Python dict assignment `d[k] = v` on an insertion-ordered association
list: update in place when the key exists, append otherwise. -/
def dictInsert (d : List (String × String)) (k v : String) : List (String × String) :=
  if k ∈ dictKeys d then d.map (fun p => if p.1 = k then (p.1, v) else p)
  else d ++ [(k, v)]

/-- Python `d.get(k)` on an insertion-ordered association list. -/
def dictGet (d : List (String × String)) (k : String) : Option String :=
  (d.find? (fun p => p.1 == k)).map Prod.snd

/-- The parameter-preparation steps of `BinanceAPI._make_request` (with
`params or {}` already resolved and the clock reading `ts`): set
`params['timestamp']`, serialize with `urlencode`, sign the serialized
string, then set `params['signature']`.  The returned mapping is the one
handed to `requests.get` as query parameters. -/
def makeRequestSent (secretKey : String) (params : List (String × String)) (ts : Nat) :
    List (String × String) :=
  let p1 := dictInsert params "timestamp" (toString ts)
  let queryString := urlencode p1
  let signature := generateSignature secretKey queryString
  dictInsert p1 "signature" signature

/-- An HTTP response as `_make_request` consumes it: status code, raw
text, and the value `response.json()` would parse on success. -/
structure HttpResponse (α : Type) where
  status_code : Nat
  text : String
  body : α
deriving Repr

/-- The status interpretation of `_make_request`: on 200 return the
parsed body, otherwise print `Erreur API: <code>` and `Message: <text>`
and return `None`.  The second component collects the printed lines. -/
def handleResponse {α : Type} (r : HttpResponse α) : Option α × List String :=
  if r.status_code = 200 then (some r.body, [])
  else (none, ["Erreur API: " ++ toString r.status_code, "Message: " ++ r.text])

/-- `BinanceAPI._make_request` end to end, with the HTTP transport
abstracted: prepare the signed parameters, hand them to the transport,
interpret the status. -/
def makeRequest {α : Type} (secretKey : String) (params : List (String × String)) (ts : Nat)
    (transport : List (String × String) → HttpResponse α) : Option α × List String :=
  handleResponse (transport (makeRequestSent secretKey params ts))

/-- The parameter mapping `get_last_trade` builds before calling
`_make_request`: `{'limit': limit}`, with `symbol` added only when the
`symbol` argument is truthy (not `None` and not the empty string). -/
def getLastTradeParams (symbol : Option String) (limit : Nat) : List (String × String) :=
  let params := [("limit", toString limit)]
  match symbol with
  | none => params
  | some s => if s = "" then params else dictInsert params "symbol" s

/-- The parameter mapping `get_all_orders` builds before calling
`_make_request`: same shape as `get_last_trade`. -/
def getAllOrdersParams (symbol : Option String) (limit : Nat) : List (String × String) :=
  let params := [("limit", toString limit)]
  match symbol with
  | none => params
  | some s => if s = "" then params else dictInsert params "symbol" s


/-- The characters Python `str.strip()` removes: space, tab, newline,
carriage return, vertical tab, form feed. -/
def isPySpace (c : Char) : Bool :=
  c == ' ' || c == '\t' || c == '\n' || c == '\x0d' || c == Char.ofNat 11 || c == Char.ofNat 12

/-- Drop the trailing characters satisfying `p`. -/
def dropTrailing (p : Char → Bool) (l : List Char) : List Char :=
  (l.reverse.dropWhile p).reverse

/-- Python `str.strip()` on a character list. -/
def pyStripList (l : List Char) : List Char :=
  dropTrailing isPySpace (l.dropWhile isPySpace)

/-- Python `str.strip()`. -/
def pyStrip (s : String) : String :=
  String.mk (pyStripList s.data)

/-- Python `str.strip(c)` for a single character `c`: remove every
leading and trailing occurrence of `c`. -/
def pyStripChar (c : Char) (s : String) : String :=
  String.mk (dropTrailing (· == c) (s.data.dropWhile (· == c)))

/-- Split a character list at the first occurrence of `c`
(Python `str.split(c, 1)` when `c` occurs). -/
def splitFirst (c : Char) : List Char → List Char × List Char
  | [] => ([], [])
  | x :: xs =>
    if x = c then ([], xs)
    else
      let r := splitFirst c xs
      (x :: r.1, r.2)

/-- One line of `load_env_file`: strip the line; keep it only when it is
non-empty, does not start with `#`, and contains `=`; then split on the
first `=`, strip the key, and strip whitespace then double quotes then
single quotes from the value.  (`startswith('#')` on the non-empty
stripped line is exactly: its first character is `#`; `'=' in line` is
membership of `=` among its characters.) -/
def processLine (line : String) : Option (String × String) :=
  let l := pyStripList line.data
  if l ≠ [] ∧ l.head? ≠ some '#' ∧ '=' ∈ l then
    let kv := splitFirst '=' l
    some (pyStrip (String.mk kv.1),
          pyStripChar '\'' (pyStripChar '"' (pyStrip (String.mk kv.2))))
  else none

/-- `load_env_file`: `none` models a missing `.env` file (the
`FileNotFoundError` branch returns `{}`); `some lines` models the file's
lines.  Assignments go through `dictInsert`, matching `env_vars[key] = value`. -/
def loadEnvFile (file : Option (List String)) : List (String × String) :=
  match file with
  | none => []
  | some lines =>
    lines.foldl
      (fun d line =>
        match processLine line with
        | none => d
        | some kv => dictInsert d kv.1 kv.2)
      []

/-- Python's `a or b` on optional strings: `None` and the empty string
are falsy, so both fall back to `b`. -/
def pyOr (a b : Option String) : Option String :=
  match a with
  | none => b
  | some v => if v = "" then b else some v

/-- The module-level credential resolution
`env_vars.get('BINANCE_API_KEY') or os.getenv('BINANCE_API_KEY')`,
with the process environment's value abstracted as `envVal`. -/
def resolveApiKey (file : Option (List String)) (envVal : Option String) : Option String :=
  pyOr (dictGet (loadEnvFile file) "BINANCE_API_KEY") envVal
/-- An order as `get_recent_filled_orders` consumes it: only the
`status` and `time` fields drive control flow (filtering and sorting);
`symbol` is kept for readability of the fixtures.  The remaining JSON
fields are opaque payload never inspected by the script. -/
structure Order where
  symbol : String
  status : String
  time : Nat
deriving Repr, DecidableEq

/-- One entry of `account_info['balances']`; `free` and `locked` are the
numeric values `float(...)` yields on Binance's decimal strings. -/
structure Balance where
  asset : String
  free : ℚ
  locked : ℚ

/-- The part of the `/api/v3/account` response the script reads. -/
structure AccountInfo where
  balances : List Balance

/-- The five candidate pairs built for one asset:
`[f"{asset}USDT", f"{asset}BTC", f"{asset}ETH", f"BTC{asset}", f"ETH{asset}"]`. -/
def commonPairs (asset : String) : List String :=
  [asset ++ "USDT", asset ++ "BTC", asset ++ "ETH", "BTC" ++ asset, "ETH" ++ asset]

/-- The fixed popular-pairs list. -/
def popularSymbols : List String :=
  ["BTCUSDT", "ETHUSDT", "BNBUSDT", "ADAUSDT", "SOLUSDT"]

/-- First-occurrence deduplication, the order-deterministic embedding of
Python's `list(set(...))` (whose iteration order is unspecified; every
property proved about the result is invariant under reordering). -/
def dedupFirst (l : List String) : List String :=
  l.foldl (fun acc x => if x ∈ acc then acc else acc ++ [x]) []

/-- The symbol-universe builder inside `get_recent_filled_orders`
(lines 128–141): for every balance with `free > 0` or `locked > 0`
extend with the five common pairs, append the popular pairs, then
deduplicate. -/
def symbolsWithBalance (info : AccountInfo) : List String :=
  let fromBalances :=
    info.balances.foldl
      (fun acc b => if 0 < b.free ∨ 0 < b.locked then acc ++ commonPairs b.asset else acc)
      []
  dedupFirst (fromBalances ++ popularSymbols)

/-- The outcome of `self.get_all_orders(symbol, limit=20)` as seen by
the `try` block: `.error` a raised exception, `.ok none` the `None` that
`_make_request` returns on HTTP failure, `.ok (some l)` a parsed list. -/
abbrev OrderFetch := String → Except Unit (Option (List Order))

/-- One iteration of the per-symbol loop (lines 144–152): record the
request, swallow errors, skip falsy (`None` or empty) results, else
append the `FILLED` orders. -/
def scanStep (fetch : OrderFetch) (st : List Order × List String) (symbol : String) :
    List Order × List String :=
  let log := st.2 ++ [symbol]
  match fetch symbol with
  | .error _ => (st.1, log)
  | .ok none => (st.1, log)
  | .ok (some orders) =>
    (if orders.isEmpty then st.1
     else st.1 ++ orders.filter (fun o => o.status == "FILLED"), log)

/-- The whole per-symbol loop over a candidate list.  The first
component is `all_filled_orders`; the second lists the symbols for which
an order request was issued, in order. -/
def scanSymbols (fetch : OrderFetch) (symbols : List String) : List Order × List String :=
  symbols.foldl (scanStep fetch) ([], [])

/-- Stable insertion of an order into a list already sorted by `time`
descending: it goes after every order with `time ≥` its own. -/
def insertDesc (o : Order) : List Order → List Order
  | [] => [o]
  | x :: xs => if o.time ≤ x.time then x :: insertDesc o xs else o :: x :: xs

/-- `all_filled_orders.sort(key=lambda x: x['time'], reverse=True)`:
a stable sort by `time` descending.  Python's `list.sort` is stable and
a stable sort's output is unique, so any stable algorithm embeds it;
this is the left-to-right stable insertion sort. -/
def sortByTimeDesc (l : List Order) : List Order :=
  l.foldl (fun acc o => insertDesc o acc) []

/-- `BinanceAPI.get_recent_filled_orders` (lines 119–159), with the
account-info response and the per-symbol fetch abstracted: on falsy
account info return `[]` without issuing any order request; otherwise
scan the first 15 deduplicated candidates, sort the accumulated FILLED
orders by time descending and keep the first `limit`.  The second
component lists the order requests issued. -/
def getRecentFilledOrders (fetch : OrderFetch) (accountInfo : Option AccountInfo)
    (limit : Nat) : List Order × List String :=
  match accountInfo with
  | none => ([], [])
  | some info =>
    let symbols := (symbolsWithBalance info).take 15
    let r := scanSymbols fetch symbols
    (if r.1.isEmpty then [] else (sortByTimeDesc r.1).take limit, r.2)

/-- Fixture account for the fill-scanner test: balances exist but are
all zero, so the candidate universe is exactly the popular-pairs list. -/
def fixtureAccount : AccountInfo :=
  ⟨[⟨"BTC", 0, 0⟩, ⟨"ETH", 0, 0⟩]⟩

/-- Fixture fetch: `BTCUSDT` yields two FILLED orders with times 100 and
300, `ETHUSDT` one FILLED order with time 200, every other symbol an
empty list. -/
def fixtureFetch : OrderFetch := fun s =>
  if s = "BTCUSDT" then .ok (some [⟨"BTCUSDT", "FILLED", 100⟩, ⟨"BTCUSDT", "FILLED", 300⟩])
  else if s = "ETHUSDT" then .ok (some [⟨"ETHUSDT", "FILLED", 200⟩])
  else .ok (some [])

/-- Fetch used to witness error swallowing: raises on `ETHUSDT`, returns
one FILLED order on `BTCUSDT`, an empty list elsewhere. -/
def errorFetch : OrderFetch := fun s =>
  if s = "ETHUSDT" then .error ()
  else if s = "BTCUSDT" then .ok (some [⟨"BTCUSDT", "FILLED", 7⟩])
  else .ok (some [])

/-- `dictInsert` on a fresh key appends the pair. -/
theorem dictInsert_append (d : List (String × String)) (k v : String)
    (h : k ∉ dictKeys d) : dictInsert d k v = d ++ [(k, v)] := by
  unfold dictInsert
  simp [h]

/-- C8: the signature function is deterministic — for every query string
and secret key, two runs on identical inputs yield identical hex
digests; `generateSignature` is a pure function of its arguments, with
no side effects. -/
theorem generateSignature_deterministic (queryString secretKey : String) :
    generateSignature secretKey queryString = generateSignature secretKey queryString := rfl

/-- C5: when the account-info request returns `None`,
`get_recent_filled_orders` returns the empty list (no error, no
exception) and issues no per-symbol order request. -/
theorem getRecentFilledOrders_no_account (fetch : OrderFetch) (limit : Nat) :
    getRecentFilledOrders fetch none limit = ([], []) := rfl

/-- C9: with `symbol = None` or the falsy empty string, `get_all_orders`
and `get_last_trade` build a parameter mapping holding only `limit` —
no `symbol` key is sent, empty or otherwise. -/
theorem orderParams_omit_falsy_symbol (limit : Nat) :
    getAllOrdersParams none limit = [("limit", toString limit)] ∧
    getAllOrdersParams (some "") limit = [("limit", toString limit)] ∧
    getLastTradeParams none limit = [("limit", toString limit)] ∧
    getLastTradeParams (some "") limit = [("limit", toString limit)] ∧
    "symbol" ∉ dictKeys (getAllOrdersParams none limit) ∧
    "symbol" ∉ dictKeys (getAllOrdersParams (some "") limit) ∧
    "symbol" ∉ dictKeys (getLastTradeParams none limit) ∧
    "symbol" ∉ dictKeys (getLastTradeParams (some "") limit) := by
  refine ⟨rfl, rfl, rfl, rfl, ?_, ?_, ?_, ?_⟩ <;>
    simp [getAllOrdersParams, getLastTradeParams, dictKeys]

/-- C4: `_make_request` maps an HTTP 200 response to the parsed body and
any other status to `None` plus the two printed error lines; no
exception propagates and exactly one transport call is interpreted, so
no retry happens. -/
theorem makeRequest_status (α : Type) (transport : List (String × String) → HttpResponse α)
    (secretKey : String) (params : List (String × String)) (ts : Nat)
    (r : HttpResponse α) (h : transport (makeRequestSent secretKey params ts) = r) :
    (r.status_code = 200 → makeRequest secretKey params ts transport = (some r.body, [])) ∧
    (r.status_code ≠ 200 → makeRequest secretKey params ts transport =
      (none, ["Erreur API: " ++ toString r.status_code, "Message: " ++ r.text])) := by
  subst h
  unfold makeRequest handleResponse
  constructor
  · intro h200
    simp [h200]
  · intro hne
    simp [hne]

/-- C4 witness: a transport answering HTTP 418 makes `_make_request`
return `None` with the two error lines. -/
theorem makeRequest_status_witness :
    (418 : Nat) ≠ 200 ∧
    makeRequest "sk" [("limit", "20")] 1700000000000
      (fun _ => HttpResponse.mk 418 "teapot" ([] : List Order)) =
      (none, ["Erreur API: 418", "Message: teapot"]) :=
  ⟨by decide,
    (makeRequest_status (List Order) (fun _ => HttpResponse.mk 418 "teapot" [])
      "sk" [("limit", "20")] 1700000000000 (HttpResponse.mk 418 "teapot" []) rfl).2
      (by decide)⟩

/-- C3: `_make_request` injects `timestamp` into the parameters, signs
the URL-encoded serialization of the mapping in insertion order — with
the timestamp, without any `signature` field — and only then appends
`signature` as an additional transmitted parameter. -/
theorem makeRequestSent_spec (secretKey : String) (params : List (String × String)) (ts : Nat)
    (hts : "timestamp" ∉ dictKeys params) (hsig : "signature" ∉ dictKeys params) :
    makeRequestSent secretKey params ts =
      params ++ [("timestamp", toString ts),
        ("signature", generateSignature secretKey
          (urlencode (params ++ [("timestamp", toString ts)])))] := by
  unfold makeRequestSent
  rw [dictInsert_append params "timestamp" (toString ts) hts]
  rw [dictInsert_append _ "signature" _ (by simp [dictKeys] at hsig ⊢; exact hsig)]
  simp

/-- C3 witness: the prepared parameters for a concrete call. -/
theorem makeRequestSent_spec_witness :
    "timestamp" ∉ dictKeys [("symbol", "BTCUSDT"), ("limit", "20")] ∧
    "signature" ∉ dictKeys [("symbol", "BTCUSDT"), ("limit", "20")] ∧
    makeRequestSent "sk" [("symbol", "BTCUSDT"), ("limit", "20")] 1700000000000 =
      [("symbol", "BTCUSDT"), ("limit", "20")] ++ [("timestamp", toString 1700000000000),
        ("signature", generateSignature "sk"
          (urlencode ([("symbol", "BTCUSDT"), ("limit", "20")]
            ++ [("timestamp", toString 1700000000000)])))] :=
  ⟨by decide, by decide,
    makeRequestSent_spec "sk" [("symbol", "BTCUSDT"), ("limit", "20")] 1700000000000
      (by decide) (by decide)⟩

/-- C7 counterexample: a configuration file defining
`BINANCE_API_KEY` as the empty string.  The file defines the key, yet
credential resolution uses the process-environment value, because
Python's `or` also falls back on a defined-but-empty (falsy) value. -/
theorem resolveApiKey_file_defined_env_used :
    dictGet (loadEnvFile (some ["BINANCE_API_KEY="])) "BINANCE_API_KEY" = some "" ∧
    resolveApiKey (some ["BINANCE_API_KEY="]) (some "FROM_ENV") = some "FROM_ENV" ∧
    some "FROM_ENV" ≠ some "" := by
  refine ⟨rfl, rfl, by decide⟩

/-- C7 amended: the environment value is used exactly when the file does
not define the key or defines it with an empty (falsy) value; whenever
the file defines the key with a non-empty value, the file's value wins. -/
theorem resolveApiKey_amended (file : Option (List String)) (envVal : Option String) :
    (∀ v : String, dictGet (loadEnvFile file) "BINANCE_API_KEY" = some v → v ≠ "" →
      resolveApiKey file envVal = some v) ∧
    (dictGet (loadEnvFile file) "BINANCE_API_KEY" = none →
      resolveApiKey file envVal = envVal) ∧
    (dictGet (loadEnvFile file) "BINANCE_API_KEY" = some "" →
      resolveApiKey file envVal = envVal) := by
  unfold resolveApiKey
  refine ⟨?_, ?_, ?_⟩
  · intro v hv hne
    rw [hv]
    simp [pyOr, hne]
  · intro hv
    rw [hv]
    rfl
  · intro hv
    rw [hv]
    rfl

/-- C7 amended witness: a file-defined non-empty key wins over the
environment; an empty or missing one falls back to it. -/
theorem resolveApiKey_amended_witness :
    resolveApiKey (some ["BINANCE_API_KEY=FILEKEY"]) (some "FROM_ENV") = some "FILEKEY" ∧
    resolveApiKey (some ["OTHER=1"]) (some "FROM_ENV") = some "FROM_ENV" ∧
    resolveApiKey (some ["BINANCE_API_KEY="]) (some "FROM_ENV") = some "FROM_ENV" :=
  ⟨(resolveApiKey_amended (some ["BINANCE_API_KEY=FILEKEY"]) (some "FROM_ENV")).1
      "FILEKEY" (by decide) (by decide),
   (resolveApiKey_amended (some ["OTHER=1"]) (some "FROM_ENV")).2.1 (by decide),
   (resolveApiKey_amended (some ["BINANCE_API_KEY="]) (some "FROM_ENV")).2.2 (by decide)⟩

/-- C1: on the fixture (BTCUSDT two FILLED orders at times 100 and 300,
ETHUSDT one FILLED order at time 200), the fill scanner with `limit = 3`
returns exactly the three orders sorted by time descending
`[300, 200, 100]`, and with `limit = 2` exactly `[300, 200]`. -/
theorem getRecentFilledOrders_fixture :
    (getRecentFilledOrders fixtureFetch (some fixtureAccount) 3).1 =
      [⟨"BTCUSDT", "FILLED", 300⟩, ⟨"ETHUSDT", "FILLED", 200⟩, ⟨"BTCUSDT", "FILLED", 100⟩] ∧
    (getRecentFilledOrders fixtureFetch (some fixtureAccount) 2).1 =
      [⟨"BTCUSDT", "FILLED", 300⟩, ⟨"ETHUSDT", "FILLED", 200⟩] := by
  refine ⟨?_, ?_⟩ <;> rfl

/-- The order accumulator of the scan loop, ignoring the request log:
folding `scanStep` touches the log only by appending the symbol. -/
theorem scanSymbols_fst_foldl (fetch : OrderFetch) (symbols : List String)
    (acc : List Order) (log : List String) :
    (symbols.foldl (scanStep fetch) (acc, log)).1 =
      symbols.foldl
        (fun a s =>
          match fetch s with
          | .error _ => a
          | .ok none => a
          | .ok (some orders) =>
            if orders.isEmpty then a else a ++ orders.filter (fun o => o.status == "FILLED"))
        acc := by
  induction symbols generalizing acc log with
  | nil => rfl
  | cons s rest ih =>
    simp only [List.foldl_cons]
    unfold scanStep
    cases fetch s with
    | error e => exact ih acc (log ++ [s])
    | ok o =>
      cases o with
      | none => exact ih acc (log ++ [s])
      | some orders => exact ih _ (log ++ [s])

/-- The scan log is exactly the scanned symbol list: one order request
per candidate symbol, in order, whatever the fetch answers. -/
theorem scanSymbols_snd (fetch : OrderFetch) (symbols : List String)
    (acc : List Order) (log : List String) :
    (symbols.foldl (scanStep fetch) (acc, log)).2 = log ++ symbols := by
  induction symbols generalizing acc log with
  | nil => simp
  | cons s rest ih =>
    have h2 : ∀ a : List Order,
        (rest.foldl (scanStep fetch) (a, log ++ [s])).2 = log ++ s :: rest := by
      intro a
      rw [ih a (log ++ [s]), List.append_assoc]
      simp
    simp only [List.foldl_cons]
    unfold scanStep
    cases fetch s with
    | error e => exact h2 acc
    | ok o =>
      cases o with
      | none => exact h2 acc
      | some orders => exact h2 _

/-- C6: an error raised while fetching one candidate symbol is fully
swallowed — the accumulated FILLED orders are exactly those of a scan
over the remaining symbols, the failing symbol contributes nothing, and
the scan still visits every symbol (the request log is the whole list),
wherever the failing symbol sits. -/
theorem scanSymbols_error_swallowed (fetch : OrderFetch) (pre post : List String)
    (s : String) (h : fetch s = .error ()) :
    (scanSymbols fetch (pre ++ s :: post)).1 = (scanSymbols fetch (pre ++ post)).1 ∧
    (scanSymbols fetch (pre ++ s :: post)).2 = pre ++ s :: post := by
  constructor
  · unfold scanSymbols
    rw [scanSymbols_fst_foldl, scanSymbols_fst_foldl]
    rw [List.foldl_append, List.foldl_append, List.foldl_cons, h]
  · unfold scanSymbols
    rw [scanSymbols_snd]
    simp

/-- C6 witness: `errorFetch` raises on `ETHUSDT`; scanning
`[BTCUSDT, ETHUSDT, BNBUSDT]` accumulates the same orders as scanning
`[BTCUSDT, BNBUSDT]`, and still visits all three symbols. -/
theorem scanSymbols_error_swallowed_witness :
    (scanSymbols errorFetch (["BTCUSDT"] ++ "ETHUSDT" :: ["BNBUSDT"])).1 =
      (scanSymbols errorFetch (["BTCUSDT"] ++ ["BNBUSDT"])).1 ∧
    (scanSymbols errorFetch (["BTCUSDT"] ++ "ETHUSDT" :: ["BNBUSDT"])).2 =
      ["BTCUSDT"] ++ "ETHUSDT" :: ["BNBUSDT"] :=
  scanSymbols_error_swallowed errorFetch ["BTCUSDT"] ["BNBUSDT"] "ETHUSDT" rfl

/-- Membership in the first-occurrence deduplication fold. -/
theorem mem_dedupFirst_aux (l acc : List String) (y : String) :
    y ∈ l.foldl (fun a x => if x ∈ a then a else a ++ [x]) acc ↔ y ∈ acc ∨ y ∈ l := by
  induction l generalizing acc with
  | nil => simp
  | cons x xs ih =>
    simp only [List.foldl_cons]
    rw [ih]
    by_cases hx : x ∈ acc
    · rw [if_pos hx]
      constructor
      · rintro (h | h)
        · exact Or.inl h
        · exact Or.inr (List.mem_cons_of_mem x h)
      · rintro (h | h)
        · exact Or.inl h
        · rcases List.mem_cons.mp h with h1 | h1
          · subst h1; exact Or.inl hx
          · exact Or.inr h1
    · rw [if_neg hx]
      constructor
      · rintro (h | h)
        · rcases List.mem_append.mp h with h1 | h1
          · exact Or.inl h1
          · have h2 := List.mem_singleton.mp h1
            subst h2; exact Or.inr (List.mem_cons_self _ _)
        · exact Or.inr (List.mem_cons_of_mem x h)
      · rintro (h | h)
        · exact Or.inl (List.mem_append.mpr (Or.inl h))
        · rcases List.mem_cons.mp h with h1 | h1
          · subst h1; exact Or.inl (List.mem_append.mpr (Or.inr (List.mem_singleton.mpr rfl)))
          · exact Or.inr h1

/-- `dedupFirst` keeps exactly the members of its input. -/
theorem mem_dedupFirst (l : List String) (y : String) : y ∈ dedupFirst l ↔ y ∈ l := by
  unfold dedupFirst
  rw [mem_dedupFirst_aux]
  simp

/-- The first-occurrence deduplication fold preserves `Nodup`. -/
theorem nodup_dedupFirst_aux (l : List String) :
    ∀ acc : List String, acc.Nodup →
      (l.foldl (fun a x => if x ∈ a then a else a ++ [x]) acc).Nodup := by
  induction l with
  | nil => intro acc h; exact h
  | cons x xs ih =>
    intro acc h
    simp only [List.foldl_cons]
    by_cases hx : x ∈ acc
    · rw [if_pos hx]; exact ih acc h
    · rw [if_neg hx]
      refine ih _ ?_
      rw [List.nodup_append]
      refine ⟨h, List.nodup_singleton x, ?_⟩
      intro a ha hax
      rw [List.mem_singleton] at hax
      exact hx (hax ▸ ha)

/-- `dedupFirst` yields a list with no duplicates. -/
theorem nodup_dedupFirst (l : List String) : (dedupFirst l).Nodup :=
  nodup_dedupFirst_aux l [] List.nodup_nil

/-- Membership in the balance-pair accumulation fold. -/
theorem mem_balancePairs_aux (bs : List Balance) (acc : List String) (y : String) :
    y ∈ bs.foldl
        (fun a b => if 0 < b.free ∨ 0 < b.locked then a ++ commonPairs b.asset else a) acc ↔
      y ∈ acc ∨ ∃ b ∈ bs, (0 < b.free ∨ 0 < b.locked) ∧ y ∈ commonPairs b.asset := by
  induction bs generalizing acc with
  | nil => simp
  | cons b rest ih =>
    simp only [List.foldl_cons]
    rw [ih]
    by_cases hb : 0 < b.free ∨ 0 < b.locked
    · rw [if_pos hb]
      constructor
      · rintro (h | ⟨b2, hb2, hc2, hy2⟩)
        · rcases List.mem_append.mp h with h1 | h1
          · exact Or.inl h1
          · exact Or.inr ⟨b, List.mem_cons_self b rest, hb, h1⟩
        · exact Or.inr ⟨b2, List.mem_cons_of_mem b hb2, hc2, hy2⟩
      · rintro (h | ⟨b2, hb2, hc2, hy2⟩)
        · exact Or.inl (List.mem_append.mpr (Or.inl h))
        · rcases List.mem_cons.mp hb2 with h1 | h1
          · subst h1; exact Or.inl (List.mem_append.mpr (Or.inr hy2))
          · exact Or.inr ⟨b2, h1, hc2, hy2⟩
    · rw [if_neg hb]
      constructor
      · rintro (h | ⟨b2, hb2, hc2, hy2⟩)
        · exact Or.inl h
        · exact Or.inr ⟨b2, List.mem_cons_of_mem b hb2, hc2, hy2⟩
      · rintro (h | ⟨b2, hb2, hc2, hy2⟩)
        · exact Or.inl h
        · rcases List.mem_cons.mp hb2 with h1 | h1
          · subst h1; exact absurd hc2 hb
          · exact Or.inr ⟨b2, h1, hc2, hy2⟩

/-- C2: for every account-info input, the symbol universe holds exactly
the five candidate pairs of each balance with `free > 0` or
`locked > 0` together with the fixed popular list, deduplicated; in
particular, with positive balances for BTC and ETH, it contains
`BTCUSDT`, `ETHUSDT`, `BTCETH` or `ETHBTC`, and the five popular
symbols, with no duplicates. -/
theorem symbolsWithBalance_spec :
    (∀ (info : AccountInfo) (x : String),
      x ∈ symbolsWithBalance info ↔
        ((∃ b ∈ info.balances, (0 < b.free ∨ 0 < b.locked) ∧
            x ∈ [b.asset ++ "USDT", b.asset ++ "BTC", b.asset ++ "ETH",
                 "BTC" ++ b.asset, "ETH" ++ b.asset]) ∨
          x ∈ ["BTCUSDT", "ETHUSDT", "BNBUSDT", "ADAUSDT", "SOLUSDT"])) ∧
    (∀ info : AccountInfo, (symbolsWithBalance info).Nodup) ∧
    ("BTCUSDT" ∈ symbolsWithBalance ⟨[⟨"BTC", 1, 0⟩, ⟨"ETH", 2, 0⟩]⟩ ∧
     "ETHUSDT" ∈ symbolsWithBalance ⟨[⟨"BTC", 1, 0⟩, ⟨"ETH", 2, 0⟩]⟩ ∧
     ("BTCETH" ∈ symbolsWithBalance ⟨[⟨"BTC", 1, 0⟩, ⟨"ETH", 2, 0⟩]⟩ ∨
      "ETHBTC" ∈ symbolsWithBalance ⟨[⟨"BTC", 1, 0⟩, ⟨"ETH", 2, 0⟩]⟩) ∧
     (∀ p ∈ popularSymbols, p ∈ symbolsWithBalance ⟨[⟨"BTC", 1, 0⟩, ⟨"ETH", 2, 0⟩]⟩) ∧
     (symbolsWithBalance ⟨[⟨"BTC", 1, 0⟩, ⟨"ETH", 2, 0⟩]⟩).Nodup) := by
  refine ⟨?_, ?_, ?_⟩
  · intro info x
    unfold symbolsWithBalance
    rw [mem_dedupFirst, List.mem_append, mem_balancePairs_aux]
    simp only [List.not_mem_nil, false_or]
    exact Iff.rfl
  · intro info
    unfold symbolsWithBalance
    exact nodup_dedupFirst _
  · exact ⟨by decide, by decide, Or.inl (by decide), by decide, by decide⟩

/-- `dropTrailing` is Mathlib's `List.rdropWhile`. -/
theorem dropTrailing_eq_rdropWhile (p : Char → Bool) (l : List Char) :
    dropTrailing p l = List.rdropWhile p l := rfl

/-- `dropWhile` stops at the first element not satisfying `p`, across an
append. -/
theorem dropWhile_append_cons (p : Char → Bool) (a b : List Char) (c : Char)
    (hc : ¬ p c) : (a ++ c :: b).dropWhile p = a.dropWhile p ++ c :: b := by
  rw [List.dropWhile_append]
  by_cases h : (a.dropWhile p).isEmpty
  · rw [if_pos h, List.dropWhile_cons, if_neg hc]
    rw [List.isEmpty_iff] at h
    rw [h, List.nil_append]
  · rw [if_neg h]

/-- `dropTrailing` leaves everything before a non-`p` element intact. -/
theorem dropTrailing_append_cons (p : Char → Bool) (a b : List Char) (c : Char)
    (hc : ¬ p c) : dropTrailing p (a ++ c :: b) = a ++ c :: dropTrailing p b := by
  unfold dropTrailing
  rw [List.reverse_append, List.reverse_cons, List.append_assoc, List.singleton_append]
  rw [dropWhile_append_cons p _ _ c hc]
  simp [List.reverse_append]

/-- Splitting at the first occurrence of `c`: everything before the
first `c` becomes the head part, everything after it the tail part. -/
theorem splitFirst_append (c : Char) (a b : List Char) (h : c ∉ a) :
    splitFirst c (a ++ c :: b) = (a, b) := by
  induction a with
  | nil => simp [splitFirst]
  | cons x xs ih =>
    have hx : ¬ x = c := fun e => h (e ▸ List.mem_cons_self x xs)
    have ih2 := ih (fun hm => h (List.mem_cons_of_mem x hm))
    simp [splitFirst, hx, ih2]

/-- Characters survive `pyStripList`. -/
theorem mem_pyStripList (l : List Char) (y : Char) (h : y ∈ pyStripList l) : y ∈ l := by
  unfold pyStripList dropTrailing at h
  rw [List.mem_reverse] at h
  have h2 := (List.dropWhile_suffix isPySpace).subset h
  rw [List.mem_reverse] at h2
  exact (List.dropWhile_suffix isPySpace).subset h2

/-- Stripping after removing leading whitespace strips the original. -/
theorem pyStripList_dropWhile (l : List Char) :
    pyStripList (l.dropWhile isPySpace) = pyStripList l := by
  unfold pyStripList
  rw [List.dropWhile_idempotent]

/-- Removal of trailing matches is idempotent. -/
theorem dropTrailing_idem (p : Char → Bool) (l : List Char) :
    dropTrailing p (dropTrailing p l) = dropTrailing p l :=
  List.rdropWhile_idempotent p l

/-- Stripping after removing trailing whitespace strips the original. -/
theorem pyStripList_dropTrailing (l : List Char) :
    pyStripList (dropTrailing isPySpace l) = pyStripList l := by
  have hl := List.takeWhile_append_dropWhile isPySpace l
  cases hY : l.dropWhile isPySpace with
  | nil =>
    have hall : ∀ x ∈ l, isPySpace x := List.dropWhile_eq_nil_iff.mp hY
    have h1 : dropTrailing isPySpace l = [] := by
      rw [dropTrailing_eq_rdropWhile]
      exact List.rdropWhile_eq_nil_iff.mpr hall
    rw [h1]
    unfold pyStripList
    rw [hY]
    rfl
  | cons y ys =>
    have hy : ¬ isPySpace y = true := by
      have h2 : List.dropWhile isPySpace (y :: ys) = y :: ys := by
        rw [← hY, List.dropWhile_idempotent]
      have h3 := List.dropWhile_eq_self_iff.mp h2 (by simp)
      simpa using h3
    have hw : l.takeWhile isPySpace ++ y :: ys = l := by rw [← hY]; exact hl
    have hdw : (l.takeWhile isPySpace).dropWhile isPySpace = [] :=
      List.dropWhile_eq_nil_iff.mpr (fun x hx => List.mem_takeWhile_imp hx)
    conv_lhs => rw [← hw]
    rw [dropTrailing_append_cons _ _ _ _ hy]
    unfold pyStripList
    rw [dropWhile_append_cons _ _ _ _ hy, hdw, List.nil_append]
    rw [show (y :: dropTrailing isPySpace ys) = [] ++ y :: dropTrailing isPySpace ys from rfl]
    rw [dropTrailing_append_cons _ _ _ _ hy, List.nil_append, dropTrailing_idem]
    rw [hY]
    rw [show (y :: ys) = [] ++ y :: ys from rfl]
    rw [dropTrailing_append_cons _ _ _ _ hy, List.nil_append]

/-- C10: the configuration-file loader returns an empty mapping for a
missing file; it ignores blank (all-whitespace) lines, lines starting
with `#`, and lines containing no `=`; it splits each remaining line on
the first `=` only (the key may not contain `=`, the value may), and it
strips surrounding whitespace and then surrounding double and single
quotes from the value, and surrounding whitespace from the key. -/
theorem loadEnvFile_spec :
    loadEnvFile none = [] ∧
    (∀ line : String, (∀ c ∈ line.data, isPySpace c) → processLine line = none) ∧
    (∀ line : String, line.data.head? = some '#' → processLine line = none) ∧
    (∀ line : String, '=' ∉ line.data → processLine line = none) ∧
    (∀ k v : String, '=' ∉ k.data →
      (pyStrip (k ++ "=" ++ v)).data.head? ≠ some '#' →
      processLine (k ++ "=" ++ v) =
        some (pyStrip k, pyStripChar '\'' (pyStripChar '"' (pyStrip v)))) := by
  refine ⟨rfl, ?_, ?_, ?_, ?_⟩
  · intro line hall
    have h0 : line.data.dropWhile isPySpace = [] := List.dropWhile_eq_nil_iff.mpr hall
    have h1 : pyStripList line.data = [] := by
      unfold pyStripList
      rw [h0]
      rfl
    unfold processLine
    rw [h1]
    simp
  · intro line hhead
    cases hld : line.data with
    | nil => rw [hld] at hhead; exact absurd hhead (by simp)
    | cons c rest =>
      rw [hld] at hhead
      have hc : c = '#' := by
        have := List.head?_cons (a := c) (l := rest)
        rw [this] at hhead
        exact Option.some.inj hhead
      subst hc
      have h1 : pyStripList line.data = '#' :: dropTrailing isPySpace rest := by
        rw [hld]
        unfold pyStripList
        rw [List.dropWhile_cons, if_neg (by decide)]
        rw [show ('#' :: rest) = [] ++ '#' :: rest from rfl,
            dropTrailing_append_cons _ _ _ _ (by decide), List.nil_append]
      unfold processLine
      rw [h1]
      rw [if_neg (by rintro ⟨h2, h3, h4⟩; exact h3 rfl)]
  · intro line hmem
    unfold processLine
    rw [if_neg (by rintro ⟨h2, h3, h4⟩; exact hmem (mem_pyStripList _ _ h4))]
  · intro k v hkeq hhash
    have hdata : (k ++ "=" ++ v).data = k.data ++ '=' :: v.data := by
      rw [String.data_append, String.data_append]
      simp
    have hstrip : pyStripList (k ++ "=" ++ v).data =
        k.data.dropWhile isPySpace ++ '=' :: dropTrailing isPySpace v.data := by
      rw [hdata]
      unfold pyStripList
      rw [dropWhile_append_cons _ _ _ _ (by decide)]
      rw [dropTrailing_append_cons _ _ _ _ (by decide)]
    have hhash2 : (k.data.dropWhile isPySpace ++
        '=' :: dropTrailing isPySpace v.data).head? ≠ some '#' := by
      have h0 : (pyStrip (k ++ "=" ++ v)).data = pyStripList (k ++ "=" ++ v).data := rfl
      rw [h0, hstrip] at hhash
      exact hhash
    have hkl : '=' ∉ k.data.dropWhile isPySpace :=
      fun hm => hkeq ((List.dropWhile_suffix isPySpace).subset hm)
    unfold processLine
    rw [hstrip]
    rw [if_pos ⟨by simp, hhash2, by simp⟩]
    rw [splitFirst_append '=' _ _ hkl]
    show some (pyStrip (String.mk (k.data.dropWhile isPySpace)),
      pyStripChar '\'' (pyStripChar '"'
        (pyStrip (String.mk (dropTrailing isPySpace v.data))))) = _
    have hkey : pyStrip (String.mk (k.data.dropWhile isPySpace)) = pyStrip k := by
      show String.mk (pyStripList (k.data.dropWhile isPySpace)) = _
      rw [pyStripList_dropWhile]
      rfl
    have hval : pyStrip (String.mk (dropTrailing isPySpace v.data)) = pyStrip v := by
      show String.mk (pyStripList (dropTrailing isPySpace v.data)) = _
      rw [pyStripList_dropTrailing]
      rfl
    rw [hkey, hval]
